import Mathlib

/-!
Shallow embedding of `summarization-pydantic-ai`
(`src/pydantic_ai_summarization/{types,processor,sliding_window}.py`).

Modelling conventions:
* Python message objects (`ModelRequest`/`ModelResponse` and their parts)
  become a closed inductive family; part kinds the code never inspects are
  collapsed into an `other` constructor (the source skips them via
  `isinstance` checks).
* Python `int` becomes `ℤ` (`ℕ` where the value is an index/length),
  Python `float` values of `ContextSize` tuples become `ℚ`; the float
  products the code truncates with `int(...)` are modelled as exact
  rational products truncated toward zero (`pythonInt`).
* `None`-able ints become `Option ℤ`; Python truthiness of such a field
  (`if self.max_input_tokens:`) is `getD 0 ≠ 0`.
* Raising `ValueError` becomes `Except String`.
* The external summarization agent (creation plus `agent.run`, both inside
  the same `try` of `_create_summary`) is a parameter
  `run : String → Except String String`.
-/

/-- Truncation toward zero, the semantics of Python `int(...)` on a number. -/
def pythonInt (q : ℚ) : ℤ := if q < 0 then ⌈q⌉ else ⌊q⌋

/-- Python truthiness of an `int | None` field: `None` and `0` are falsy. -/
def optTruthy (o : Option ℤ) : Bool := o.getD 0 != 0

/-- One item of a multi-part `UserPromptPart.content` list: either a dict
carrying a `"text"` entry (modelled by the `str()` of that entry) or any
other item, which the code ignores. -/
inductive UserItem where
  | textDict (text : String)
  | other
  deriving DecidableEq

/-- `UserPromptPart.content`: a plain string or a list of content items. -/
inductive UserContent where
  | str (s : String)
  | parts (items : List UserItem)
  deriving DecidableEq

/-- Parts of a `ModelRequest` (`pydantic_ai.messages`): the three kinds the
code inspects, plus `other` for any part kind it skips.  `toolReturn`
content is modelled by its `str()` rendering. -/
inductive RequestPart where
  | userPrompt (content : UserContent)
  | systemPrompt (content : String)
  | toolReturn (tool_name : String) (content : String) (tool_call_id : String)
  | other
  deriving DecidableEq

/-- Parts of a `ModelResponse`: `TextPart`, `ToolCallPart` (args modelled by
their `str()` rendering). -/
inductive ResponsePart where
  | text (content : String)
  | toolCall (tool_name : String) (args : String) (tool_call_id : String)
  deriving DecidableEq

/-- `ModelMessage = ModelRequest | ModelResponse`. -/
inductive ModelMessage where
  | request (parts : List RequestPart)
  | response (parts : List ResponsePart)
  deriving DecidableEq

/-- `ContextSize`: a `(kind, value)` tuple.  The kind is a runtime string in
Python (`"messages" | "tokens" | "fraction"`, anything else is rejected at
validation), the value a number. -/
abbrev ContextSize := String × ℚ

/-- Character contribution of a `UserPromptPart.content` in
`count_tokens_approximately` (processor.py lines 85-92). -/
def userContentChars : UserContent → ℕ
  | .str s => s.length
  | .parts items =>
      (items.map fun it =>
        match it with
        | .textDict t => t.length
        | .other => 0).sum

/-- Character contribution of one request part (processor.py lines 84-96). -/
def requestPartChars : RequestPart → ℕ
  | .userPrompt c => userContentChars c
  | .systemPrompt s => s.length
  | .toolReturn _ content _ => content.length
  | .other => 0

/-- Character contribution of one response part (processor.py lines 97-103). -/
def responsePartChars : ResponsePart → ℕ
  | .text c => c.length
  | .toolCall name args _ => name.length + args.length

/-- Character contribution of one message. -/
def messageChars : ModelMessage → ℕ
  | .request ps => (ps.map requestPartChars).sum
  | .response ps => (ps.map responsePartChars).sum

/-- `count_tokens_approximately` (processor.py lines 60-105): total counted
characters of the textual content, integer-divided by 4. -/
def count_tokens_approximately (messages : List ModelMessage) : ℕ :=
  (messages.map messageChars).sum / 4

/-- The default counter as an `int`-valued `TokenCounter` (types.py line 11). -/
def countInt (messages : List ModelMessage) : ℤ :=
  (count_tokens_approximately messages : ℤ)

/-- `_SEARCH_RANGE_FOR_TOOL_PAIRS = 5` (sliding_window.py line 24,
processor.py line 57). -/
def SEARCH_RANGE_FOR_TOOL_PAIRS : ℕ := 5

/-- The truthy `tool_call_id`s of the `ToolCallPart`s of a message, empty
unless the message is a `ModelResponse` (sliding_window.py lines 220-226). -/
def toolCallIds (msg : ModelMessage) : List String :=
  match msg with
  | .response parts =>
      parts.filterMap fun p =>
        match p with
        | .toolCall _ _ id => if id = "" then none else some id
        | _ => none
  | .request _ => []

/-- Whether a message is a `ModelRequest` containing a `ToolReturnPart`
whose `tool_call_id` lies in `ids` (sliding_window.py lines 232-239). -/
def requestHasReturnIn (msg : ModelMessage) (ids : List String) : Bool :=
  match msg with
  | .request parts =>
      parts.any fun p =>
        match p with
        | .toolReturn _ _ tid => ids.contains tid
        | _ => false
  | .response _ => false

/-- `_is_safe_cutoff_point` (sliding_window.py lines 206-245, identical to
processor.py lines 369-404): scan a window of radius 5 around the cutoff
for a `ModelResponse` with tool calls whose matching `ToolReturnPart` falls
on the other side of the cutoff. -/
def is_safe_cutoff_point (messages : List ModelMessage) (cutoff_index : ℕ) : Bool :=
  if messages.length ≤ cutoff_index then true
  else
    let search_start := cutoff_index - SEARCH_RANGE_FOR_TOOL_PAIRS
    let search_end := min messages.length (cutoff_index + SEARCH_RANGE_FOR_TOOL_PAIRS)
    (List.range' search_start (search_end - search_start)).all fun i =>
      let ids := toolCallIds (messages.getD i (.request []))
      if ids.isEmpty then true
      else
        (List.range' (i + 1) (messages.length - (i + 1))).all fun j =>
          if requestHasReturnIn (messages.getD j (.request [])) ids then
            decide (i < cutoff_index) == decide (j < cutoff_index)
          else true

/-- The backward scans of `_find_safe_cutoff` / `_find_token_based_cutoff`
(`for i in range(start, -1, -1): if self._is_safe_cutoff_point(...): return i`):
the first safe index at or below the start, `none` when the loop falls
through to the trailing `return 0`. -/
def firstSafeDown (messages : List ModelMessage) : ℕ → Option ℕ
  | 0 => if is_safe_cutoff_point messages 0 then some 0 else none
  | i + 1 =>
      if is_safe_cutoff_point messages (i + 1) then some (i + 1)
      else firstSafeDown messages i

/-- `_find_safe_cutoff` (sliding_window.py lines 193-204, identical to
processor.py lines 356-367). -/
def find_safe_cutoff (messages : List ModelMessage) (messages_to_keep : ℤ) : ℕ :=
  if (messages.length : ℤ) ≤ messages_to_keep then 0
  else
    let target_cutoff := ((messages.length : ℤ) - messages_to_keep).toNat
    (firstSafeDown messages target_cutoff).getD 0

/-- Python `int.bit_length`. -/
def bitLength (n : ℕ) : ℕ := if n = 0 then 0 else Nat.log2 n + 1

/-- The bounded binary-search loop of `_find_token_based_cutoff`
(sliding_window.py lines 169-181): state `(left, right, cutoff_candidate)`,
at most `fuel` iterations, early exit when `left >= right`. -/
def binSearchLoop (counter : List ModelMessage → ℤ) (messages : List ModelMessage)
    (target : ℤ) : ℕ → ℕ → ℕ → ℕ → ℕ × ℕ × ℕ
  | 0, left, right, cand => (left, right, cand)
  | fuel + 1, left, right, cand =>
      if right ≤ left then (left, right, cand)
      else
        let mid := (left + right) / 2
        if counter (messages.drop mid) ≤ target then
          binSearchLoop counter messages target fuel left mid mid
        else
          binSearchLoop counter messages target fuel (mid + 1) right cand

/-- `_find_token_based_cutoff` (sliding_window.py lines 161-191, identical to
processor.py lines 324-354); `counter` models `self.token_counter`. -/
def find_token_based_cutoff (counter : List ModelMessage → ℤ)
    (messages : List ModelMessage) (target_token_count : ℤ) : ℕ :=
  if messages.isEmpty = true ∨ counter messages ≤ target_token_count then 0
  else
    let n := messages.length
    let res := binSearchLoop counter messages target_token_count (bitLength n + 1) 0 n n
    let cutoff_candidate := res.2.2
    let cutoff_candidate := if n ≤ cutoff_candidate then n - 1 else cutoff_candidate
    (firstSafeDown messages cutoff_candidate).getD 0

/-- `_determine_cutoff_index` (sliding_window.py lines 147-159 with default
keep 50, processor.py lines 310-322 with default keep 20), parametrized over
the fields of `self` that it reads. -/
def determine_cutoff_with (counter : List ModelMessage → ℤ)
    (max_input_tokens : Option ℤ) (keep : ContextSize) (default_keep : ℤ)
    (messages : List ModelMessage) : ℕ :=
  if keep.1 = "messages" then find_safe_cutoff messages (pythonInt keep.2)
  else if keep.1 = "tokens" then
    find_token_based_cutoff counter messages (pythonInt keep.2)
  else if keep.1 = "fraction" ∧ optTruthy max_input_tokens = true then
    find_token_based_cutoff counter messages
      (pythonInt ((max_input_tokens.getD 0 : ℚ) * keep.2))
  else find_safe_cutoff messages default_keep

/-- A trigger condition is hit (one iteration of the loop in `_should_trim`,
sliding_window.py lines 136-144 / `_should_summarize`, processor.py lines
299-307). -/
def triggerHit (max_input_tokens : Option ℤ) (messages_len : ℕ) (total_tokens : ℤ)
    (c : ContextSize) : Bool :=
  decide ((c.1 = "messages" ∧ (messages_len : ℚ) ≥ c.2) ∨
    (c.1 = "tokens" ∧ (total_tokens : ℚ) ≥ c.2) ∨
    (c.1 = "fraction" ∧ optTruthy max_input_tokens = true ∧
      total_tokens ≥ pythonInt ((max_input_tokens.getD 0 : ℚ) * c.2)))

/-- Post-validation state of a `SlidingWindowProcessor`
(sliding_window.py lines 27-129): `trigger_conditions` models the computed
`_trigger_conditions` list. -/
structure SlidingWindowProcessor where
  trigger_conditions : List ContextSize
  keep : ContextSize
  token_counter : List ModelMessage → ℤ
  max_input_tokens : Option ℤ

/-- Post-validation state of a `SummarizationProcessor`
(processor.py lines 183-292). -/
structure SummarizationProcessor where
  model : String
  trigger_conditions : List ContextSize
  keep : ContextSize
  token_counter : List ModelMessage → ℤ
  summary_prompt : String
  max_input_tokens : Option ℤ
  trim_tokens_to_summarize : Option ℤ

/-- `SlidingWindowProcessor._should_trim` (sliding_window.py lines 131-145). -/
def should_trim (p : SlidingWindowProcessor) (messages : List ModelMessage)
    (total_tokens : ℤ) : Bool :=
  if p.trigger_conditions.isEmpty then false
  else p.trigger_conditions.any
    (triggerHit p.max_input_tokens messages.length total_tokens)

/-- `SummarizationProcessor._should_summarize` (processor.py lines 294-308),
textually identical to `_should_trim`. -/
def should_summarize (p : SummarizationProcessor) (messages : List ModelMessage)
    (total_tokens : ℤ) : Bool :=
  if p.trigger_conditions.isEmpty then false
  else p.trigger_conditions.any
    (triggerHit p.max_input_tokens messages.length total_tokens)

/-- `SlidingWindowProcessor._determine_cutoff_index` (sliding_window.py lines
147-159): the fallback branch uses `_DEFAULT_WINDOW_SIZE = 50`. -/
def SlidingWindowProcessor.determine_cutoff_index (p : SlidingWindowProcessor)
    (messages : List ModelMessage) : ℕ :=
  determine_cutoff_with p.token_counter p.max_input_tokens p.keep 50 messages

/-- `SummarizationProcessor._determine_cutoff_index` (processor.py lines
310-322): the fallback branch uses `_DEFAULT_MESSAGES_TO_KEEP = 20`. -/
def SummarizationProcessor.determine_cutoff_index (p : SummarizationProcessor)
    (messages : List ModelMessage) : ℕ :=
  determine_cutoff_with p.token_counter p.max_input_tokens p.keep 20 messages

/-- `SlidingWindowProcessor.__call__` (sliding_window.py lines 247-269). -/
def SlidingWindowProcessor.call (p : SlidingWindowProcessor)
    (messages : List ModelMessage) : List ModelMessage :=
  let total_tokens := p.token_counter messages
  if should_trim p messages total_tokens = false then messages
  else
    let cutoff_index := p.determine_cutoff_index messages
    if cutoff_index ≤ 0 then messages
    else messages.drop cutoff_index

/-- `_validate_context_size` (sliding_window.py lines 114-129, identical to
processor.py lines 277-292): `ValueError` becomes `Except.error`. -/
def validate_context_size (context : ContextSize) (parameter_name : String) :
    Except String ContextSize :=
  let kind := context.1
  let value := context.2
  if kind = "fraction" then
    if ¬(0 < value ∧ value ≤ 1) then
      .error ("Fractional " ++ parameter_name ++ " values must be between 0 and 1.")
    else .ok context
  else if kind = "tokens" ∨ kind = "messages" then
    if value ≤ 0 then
      .error (parameter_name ++ " thresholds must be greater than 0.")
    else .ok context
  else .error ("Unsupported context size type " ++ kind ++ " for " ++ parameter_name ++ ".")

/-- The `trigger` constructor argument: `ContextSize | list[ContextSize] | None`. -/
inductive TriggerArg where
  | noTrigger
  | single (c : ContextSize)
  | multi (cs : List ContextSize)

/-- The specs contained in a `trigger` argument. -/
def TriggerArg.specs : TriggerArg → List ContextSize
  | .noTrigger => []
  | .single c => [c]
  | .multi cs => cs

/-- The list comprehension `[self._validate_context_size(t, "trigger") for t
in self.trigger]`: validation of each element in order, first failure wins. -/
def validateTriggerList : List ContextSize → Except String (List ContextSize)
  | [] => .ok []
  | c :: cs => do
      let v ← validate_context_size c "trigger"
      let vs ← validateTriggerList cs
      pure (v :: vs)

/-- `__post_init__` (sliding_window.py lines 90-112, identical to
processor.py lines 253-275): validates the trigger spec(s) and the keep
spec, then requires `max_input_tokens` whenever a fraction spec is present;
returns the computed `_trigger_conditions` and the validated keep. -/
def post_init (trigger : TriggerArg) (keep : ContextSize)
    (max_input_tokens : Option ℤ) : Except String (List ContextSize × ContextSize) := do
  let conds ←
    match trigger with
    | .noTrigger => pure []
    | .multi cs => validateTriggerList cs
    | .single c => do
        let v ← validate_context_size c "trigger"
        pure [v]
  let k ← validate_context_size keep "keep"
  let requires_max_tokens :=
    conds.any (fun t => t.1 = "fraction") || decide (k.1 = "fraction")
  if requires_max_tokens = true ∧ max_input_tokens = none then
    .error "max_input_tokens is required when using fraction-based triggers or keep."
  else pure (conds, k)

/-- `Except.isOk` as a plain Bool. -/
def isOkE {α : Type} (e : Except String α) : Bool :=
  match e with
  | .ok _ => true
  | .error _ => false

/-- A spec passes `_validate_context_size`, spelled out. -/
def specValid (c : ContextSize) : Prop :=
  (c.1 = "fraction" ∧ 0 < c.2 ∧ c.2 ≤ 1) ∨
    ((c.1 = "tokens" ∨ c.1 = "messages") ∧ 0 < c.2)

/-- `_format_user_prompt` (processor.py lines 124-133). -/
def format_user_prompt (content : UserContent) : List String :=
  match content with
  | .str s => ["User: " ++ s]
  | .parts items =>
      let text_parts := items.filterMap fun it =>
        match it with
        | .textDict t => some t
        | .other => none
      if text_parts.isEmpty then []
      else ["User: " ++ String.intercalate " " text_parts]

/-- `_format_request_parts` (processor.py lines 108-121); tool return
content is truncated to 500 characters with an ellipsis marker. -/
def format_request_parts (parts : List RequestPart) : List String :=
  (parts.map fun part =>
    match part with
    | .userPrompt c => format_user_prompt c
    | .systemPrompt s => ["System: " ++ s]
    | .toolReturn name content _ =>
        let content_str :=
          if 500 < content.length then (content.take 500).push '.' ++ ".." else content
        ["Tool [" ++ name ++ "]: " ++ content_str]
    | .other => []).flatten

/-- `_format_response_parts` (processor.py lines 136-144). -/
def format_response_parts (parts : List ResponsePart) : List String :=
  (parts.map fun part =>
    match part with
    | .text c => ["Assistant: " ++ c]
    | .toolCall name args _ => ["Tool Call [" ++ name ++ "]: " ++ args]).flatten

/-- `format_messages_for_summary` (processor.py lines 147-180). -/
def format_messages_for_summary (messages : List ModelMessage) : String :=
  String.intercalate "\n"
    ((messages.map fun msg =>
      match msg with
      | .request ps => format_request_parts ps
      | .response ps => format_response_parts ps).flatten)

/-- Python `s[i:]` for an `int` index `i` (negative indices count from the
end). -/
def pyDropFrom (s : String) (i : ℤ) : String :=
  let n : ℤ := (s.length : ℤ)
  let start : ℤ := if i < 0 then max 0 (n + i) else min n i
  s.drop start.toNat

/-- The prompt handed to the summarization agent in `_create_summary`
(processor.py lines 425-431): format the messages, optionally keep only the
trailing `trim_tokens_to_summarize * 4` characters, then substitute into the
`{messages}` slot of the prompt template. -/
def summary_prompt_input (p : SummarizationProcessor)
    (messages_to_summarize : List ModelMessage) : String :=
  let formatted := format_messages_for_summary messages_to_summarize
  let formatted :=
    if optTruthy p.trim_tokens_to_summarize = true ∧
        (p.trim_tokens_to_summarize.getD 0) * 4 < (formatted.length : ℤ) then
      pyDropFrom formatted (-(p.trim_tokens_to_summarize.getD 0 * 4))
    else formatted
  p.summary_prompt.replace "{messages}" formatted

/-- `_create_summary` (processor.py lines 418-438): empty prefix short-cut,
otherwise run the agent on the built prompt; a failure of agent creation or
of the run is caught and converted into an error-description summary. -/
def create_summary (p : SummarizationProcessor) (run : String → Except String String)
    (messages_to_summarize : List ModelMessage) : String :=
  if messages_to_summarize.isEmpty then "No previous conversation history."
  else
    match run (summary_prompt_input p messages_to_summarize) with
    | .ok out => out.trim
    | .error e => "Error generating summary: " ++ e

/-- `SummarizationProcessor.__call__` (processor.py lines 440-474). -/
def SummarizationProcessor.call (p : SummarizationProcessor)
    (run : String → Except String String) (messages : List ModelMessage) :
    List ModelMessage :=
  let total_tokens := p.token_counter messages
  if should_summarize p messages total_tokens = false then messages
  else
    let cutoff_index := p.determine_cutoff_index messages
    if cutoff_index ≤ 0 then messages
    else
      let messages_to_summarize := messages.take cutoff_index
      let preserved_messages := messages.drop cutoff_index
      let summary := create_summary p run messages_to_summarize
      ModelMessage.request
        [RequestPart.systemPrompt ("Summary of previous conversation:\n\n" ++ summary)]
        :: preserved_messages

/-- Satisfaction of one trigger spec exactly as claim C3 words it: a
fraction spec is satisfied as soon as `max_input_tokens` is *present*
(`is not None`) and the total reaches `floor(max_input_tokens * f)`. -/
def claimSpecSatisfied (max_input_tokens : Option ℤ) (messages_len : ℕ)
    (total_tokens : ℤ) (c : ContextSize) : Bool :=
  decide ((c.1 = "messages" ∧ (messages_len : ℚ) ≥ c.2) ∨
    (c.1 = "tokens" ∧ (total_tokens : ℚ) ≥ c.2) ∨
    (c.1 = "fraction" ∧ max_input_tokens.isSome = true ∧
      total_tokens ≥ ⌊(max_input_tokens.getD 0 : ℚ) * c.2⌋))

/-- Satisfaction of one trigger spec as amended for claim C3: presence of
`max_input_tokens` is Python truthiness (`is not None` *and* nonzero), and
the threshold is `int(max_input_tokens * f)` — truncation toward zero, which
coincides with `floor` for the nonnegative limits the field is meant to
hold. -/
def amendedSpecSatisfied (max_input_tokens : Option ℤ) (messages_len : ℕ)
    (total_tokens : ℤ) (c : ContextSize) : Prop :=
  (c.1 = "messages" ∧ (messages_len : ℚ) ≥ c.2) ∨
    (c.1 = "tokens" ∧ (total_tokens : ℚ) ≥ c.2) ∨
    (c.1 = "fraction" ∧ ∃ m : ℤ, max_input_tokens = some m ∧ m ≠ 0 ∧
      total_tokens ≥ pythonInt ((m : ℚ) * c.2))

/-- Fixture: a log of `n` plain single-part requests. -/
def plainMsgs (n : ℕ) : List ModelMessage :=
  List.replicate n (.request [.systemPrompt "hi"])

/-- Fixture: an eight-message log whose only tool call (index 5, id `"a"`)
is answered by the request at index 6. -/
def pairMsgs : List ModelMessage :=
  plainMsgs 5 ++
    [ModelMessage.response [ResponsePart.toolCall "f" "()" "a"],
     ModelMessage.request [RequestPart.toolReturn "f" "ok" "a"],
     ModelMessage.request [RequestPart.systemPrompt "hi"]]

/-- Fixture: four messages of eight characters each (two tokens per message
under the default counter). -/
def tokMsgs : List ModelMessage :=
  List.replicate 4 (.request [.systemPrompt "12345678"])

/-- Fixture: a single four-character (one-token) message. -/
def oneMsg : List ModelMessage := [.request [.systemPrompt "abcd"]]

/-- Fixture: a processor whose fraction trigger is satisfied under claim
C3's reading (`max_input_tokens` present, `total ≥ floor(0 * 1) = 0`) but
whose `max_input_tokens = 0` is falsy in Python. -/
def fracZeroWindow : SlidingWindowProcessor :=
  ⟨[("fraction", 1)], ("messages", 50), countInt, some 0⟩

/-- Fixture: trigger at 4 messages, keep the last 2. -/
def windowA : SlidingWindowProcessor :=
  ⟨[("messages", 4)], ("messages", 2), countInt, none⟩

/-- Fixture: trigger at 3 messages, keep the last 2. -/
def windowB : SlidingWindowProcessor :=
  ⟨[("messages", 3)], ("messages", 2), countInt, none⟩

/-- Fixture: no trigger configured, keep the last 3 messages. -/
def windowC : SlidingWindowProcessor :=
  ⟨[], ("messages", 3), countInt, none⟩

/-- Fixture: a summarization processor triggering at 2 messages and keeping
the last 1. -/
def summarizerA : SummarizationProcessor :=
  ⟨"test-model", [("messages", 2)], ("messages", 1), countInt, "{messages}",
    none, some 4000⟩

/-- Fixture: a summarization collaborator that always fails. -/
def failingRun : String → Except String String := fun _ => .error "boom"

theorem sumChars_drop_le (l : List ModelMessage) (d : ℕ) :
    ((l.drop d).map messageChars).sum ≤ (l.map messageChars).sum := by
  induction d generalizing l with
  | zero => simp
  | succ n ih =>
    cases l with
    | nil => simp
    | cons a t =>
      simp only [List.drop_succ_cons, List.map_cons, List.sum_cons]
      exact (ih t).trans (Nat.le_add_left _ _)

theorem count_drop_mono (l : List ModelMessage) (k1 k2 : ℕ) (h : k1 ≤ k2) :
    count_tokens_approximately (l.drop k2) ≤ count_tokens_approximately (l.drop k1) := by
  unfold count_tokens_approximately
  apply Nat.div_le_div_right
  have : l.drop k2 = (l.drop k1).drop (k2 - k1) := by
    rw [List.drop_drop]
    congr 1
    omega
  rw [this]
  exact sumChars_drop_le (l.drop k1) (k2 - k1)

/-- C9: the default counter `count_tokens_approximately` is a pure function
equal to the total counted character length of the textual content of the
messages integer-divided by 4 (hence a non-negative integer), and it is
monotone under suffix growth: dropping a longer prefix never increases the
count. -/
theorem c9_default_counter_contract (messages : List ModelMessage) (k1 k2 : ℕ)
    (h : k1 ≤ k2) :
    count_tokens_approximately messages = (messages.map messageChars).sum / 4 ∧
    count_tokens_approximately (messages.drop k2) ≤
      count_tokens_approximately (messages.drop k1) := by
  exact ⟨rfl, count_drop_mono messages k1 k2 h⟩

/-- C9 witness: the contract instantiated on a concrete two-message log with
suffix indices 1 ≤ 2. -/
theorem c9_default_counter_contract_witness :
    count_tokens_approximately
        [ModelMessage.request [RequestPart.systemPrompt "abcdefgh"],
         ModelMessage.response [ResponsePart.text "wxyz"]] =
      ([ModelMessage.request [RequestPart.systemPrompt "abcdefgh"],
        ModelMessage.response [ResponsePart.text "wxyz"]].map messageChars).sum / 4 ∧
    count_tokens_approximately
        ([ModelMessage.request [RequestPart.systemPrompt "abcdefgh"],
          ModelMessage.response [ResponsePart.text "wxyz"]].drop 2) ≤
      count_tokens_approximately
        ([ModelMessage.request [RequestPart.systemPrompt "abcdefgh"],
          ModelMessage.response [ResponsePart.text "wxyz"]].drop 1) :=
  c9_default_counter_contract _ 1 2 (by decide)

theorem is_safe_zero (messages : List ModelMessage) :
    is_safe_cutoff_point messages 0 = true := by
  unfold is_safe_cutoff_point
  split
  · rfl
  · rw [List.all_eq_true]
    intro i _
    simp only
    split
    · rfl
    · rw [List.all_eq_true]
      intro j _
      split
      · simp
      · rfl

theorem firstSafeDown_isSome (messages : List ModelMessage) (t : ℕ) :
    (firstSafeDown messages t).isSome = true := by
  induction t with
  | zero => simp [firstSafeDown, is_safe_zero]
  | succ n ih =>
    unfold firstSafeDown
    split
    · rfl
    · exact ih

theorem firstSafeDown_eq_some (messages : List ModelMessage) (t k : ℕ)
    (h : firstSafeDown messages t = some k) :
    k ≤ t ∧ is_safe_cutoff_point messages k = true := by
  induction t with
  | zero =>
    unfold firstSafeDown at h
    split at h
    · rename_i hs
      obtain rfl : (0 : ℕ) = k := Option.some.inj h
      exact ⟨le_refl 0, hs⟩
    · cases h
  | succ n ih =>
    unfold firstSafeDown at h
    split at h
    · rename_i hs
      obtain rfl : n + 1 = k := Option.some.inj h
      exact ⟨le_refl _, hs⟩
    · obtain ⟨h1, h2⟩ := ih h
      exact ⟨h1.trans (Nat.le_succ n), h2⟩

theorem scanVal_le (messages : List ModelMessage) (t : ℕ) :
    (firstSafeDown messages t).getD 0 ≤ t := by
  cases hfs : firstSafeDown messages t with
  | none => simp
  | some k => simpa using (firstSafeDown_eq_some messages t k hfs).1

theorem scanVal_safe_of_pos (messages : List ModelMessage) (t : ℕ)
    (h : 0 < (firstSafeDown messages t).getD 0) :
    is_safe_cutoff_point messages ((firstSafeDown messages t).getD 0) = true := by
  cases hfs : firstSafeDown messages t with
  | none => rw [hfs] at h; simp at h
  | some k =>
    simpa using (firstSafeDown_eq_some messages t k hfs).2

theorem firstSafeDown_of_safe (messages : List ModelMessage) (t : ℕ)
    (h : is_safe_cutoff_point messages t = true) :
    firstSafeDown messages t = some t := by
  cases t with
  | zero => simp [firstSafeDown, h]
  | succ n => simp [firstSafeDown, h]

theorem scanVal_step (messages : List ModelMessage) (t : ℕ) :
    (firstSafeDown messages t).getD 0 ≤ (firstSafeDown messages (t + 1)).getD 0 := by
  simp only [firstSafeDown]
  split
  · simpa using (scanVal_le messages t).trans (Nat.le_succ t)
  · exact le_refl _

theorem scanVal_mono (messages : List ModelMessage) {t t' : ℕ} (h : t ≤ t') :
    (firstSafeDown messages t).getD 0 ≤ (firstSafeDown messages t').getD 0 := by
  induction t', h using Nat.le_induction with
  | base => exact le_refl _
  | succ n _ ih => exact ih.trans (scanVal_step messages n)

/-- C10: cutoff index 0 is always safe — `_is_safe_cutoff_point(messages, 0)`
is true for every log (a call at `i ≥ 0` and its return at `j > i` are both
at-or-after cutoff 0) — and consequently every backward scan of
`_find_safe_cutoff` and `_find_token_based_cutoff` finds a safe index
(`firstSafeDown` never yields `none`), so the trailing `return 0` fallback
branches are unreachable. -/
theorem c10_zero_always_safe (messages : List ModelMessage) :
    is_safe_cutoff_point messages 0 = true ∧
      ∀ t : ℕ, (firstSafeDown messages t).isSome = true :=
  ⟨is_safe_zero messages, fun t => firstSafeDown_isSome messages t⟩

/-- C7: monotonicity of message-based retain — for a fixed log and positive
retain counts `n1 ≤ n2`, `_find_safe_cutoff` with the larger retain count
never exceeds the one with the smaller count. -/
theorem c7_retain_monotone (messages : List ModelMessage) (n1 n2 : ℤ)
    (_h1 : 0 < n1) (_h2 : 0 < n2) (h12 : n1 ≤ n2) :
    find_safe_cutoff messages n2 ≤ find_safe_cutoff messages n1 := by
  unfold find_safe_cutoff
  split
  · exact Nat.zero_le _
  · rename_i hlen2
    split
    · rename_i hlen1
      exfalso
      omega
    · exact scanVal_mono messages (by omega)

/-- C7 witness: five plain messages, retain counts 1 ≤ 3. -/
theorem c7_retain_monotone_witness :
    find_safe_cutoff (plainMsgs 5) 3 ≤ find_safe_cutoff (plainMsgs 5) 1 :=
  c7_retain_monotone (plainMsgs 5) 1 3 (by decide) (by decide) (by decide)

theorem call_eq_of_no_trim (p : SlidingWindowProcessor) (messages : List ModelMessage)
    (h : should_trim p messages (p.token_counter messages) = false) :
    p.call messages = messages := by
  unfold SlidingWindowProcessor.call
  simp [h]

theorem call_eq_of_zero (p : SlidingWindowProcessor) (messages : List ModelMessage)
    (h : p.determine_cutoff_index messages = 0) :
    p.call messages = messages := by
  unfold SlidingWindowProcessor.call
  by_cases hst : should_trim p messages (p.token_counter messages) = false
  · simp [hst]
  · simp [hst, h]

theorem call_eq_drop (p : SlidingWindowProcessor) (messages : List ModelMessage)
    (h1 : should_trim p messages (p.token_counter messages) = true)
    (h2 : 0 < p.determine_cutoff_index messages) :
    p.call messages = messages.drop (p.determine_cutoff_index messages) := by
  unfold SlidingWindowProcessor.call
  have hne : ¬ (p.determine_cutoff_index messages ≤ 0) := by omega
  simp [h1, hne]

/-- C4: no-op identity and discard shape — `SlidingWindowProcessor.__call__`
returns the input log itself whenever the trigger does not fire or the
resolved cutoff index is 0 (the only way a natural cutoff can be `≤ 0`);
otherwise it returns exactly the slice `messages[k:]`, whose length is
`len(messages) - k`. -/
theorem c4_call_no_op_and_discard (p : SlidingWindowProcessor)
    (messages : List ModelMessage) :
    ((should_trim p messages (p.token_counter messages) = false ∨
        p.determine_cutoff_index messages = 0) →
      p.call messages = messages) ∧
    (should_trim p messages (p.token_counter messages) = true →
      0 < p.determine_cutoff_index messages →
      p.call messages = messages.drop (p.determine_cutoff_index messages) ∧
        (p.call messages).length =
          messages.length - p.determine_cutoff_index messages) := by
  constructor
  · rintro (h | h)
    · exact call_eq_of_no_trim p messages h
    · exact call_eq_of_zero p messages h
  · intro h1 h2
    have hd := call_eq_drop p messages h1 h2
    exact ⟨hd, by rw [hd, List.length_drop]⟩

/-- C4 witness: five plain messages with a fired `("messages", 3)` trigger
and keep 2 resolve to cutoff 3; the call drops exactly the first three. -/
theorem c4_call_no_op_and_discard_witness :
    SlidingWindowProcessor.call windowB (plainMsgs 5) = (plainMsgs 5).drop 3 ∧
      (SlidingWindowProcessor.call windowB (plainMsgs 5)).length = 2 := by
  have h := (c4_call_no_op_and_discard windowB (plainMsgs 5)).2 (by decide) (by decide)
  have hd : windowB.determine_cutoff_index (plainMsgs 5) = 3 := by decide
  rw [hd] at h
  exact ⟨h.1, h.2⟩

theorem pythonInt_eq_floor_of_nonneg (q : ℚ) (h : 0 ≤ q) : pythonInt q = ⌊q⌋ := by
  unfold pythonInt
  rw [if_neg (not_lt.mpr h)]

theorem pythonInt_nonneg (q : ℚ) (h : 0 ≤ q) : 0 ≤ pythonInt q := by
  rw [pythonInt_eq_floor_of_nonneg q h]
  exact Int.le_floor.mpr (by exact_mod_cast h)

theorem find_safe_cutoff_le (messages : List ModelMessage) (m : ℤ) (hm : 0 ≤ m) :
    find_safe_cutoff messages m ≤ messages.length := by
  unfold find_safe_cutoff
  split
  · exact Nat.zero_le _
  · exact (scanVal_le messages _).trans (by omega)

theorem binSearchLoop_cand_le (counter : List ModelMessage → ℤ)
    (messages : List ModelMessage) (target : ℤ) (n : ℕ) :
    ∀ (fuel left right cand : ℕ), right ≤ n → cand ≤ n →
      (binSearchLoop counter messages target fuel left right cand).2.2 ≤ n := by
  intro fuel
  induction fuel with
  | zero => intro left right cand _ hc; simpa [binSearchLoop] using hc
  | succ f ih =>
    intro left right cand hr hc
    unfold binSearchLoop
    split
    · simpa using hc
    · rename_i hlr
      simp only
      split
      · exact ih left ((left + right) / 2) ((left + right) / 2) (by omega) (by omega)
      · exact ih ((left + right) / 2 + 1) right cand hr hc

theorem find_token_based_cutoff_le (counter : List ModelMessage → ℤ)
    (messages : List ModelMessage) (target : ℤ) :
    find_token_based_cutoff counter messages target ≤ messages.length := by
  unfold find_token_based_cutoff
  split
  · exact Nat.zero_le _
  · have hc := binSearchLoop_cand_le counter messages target messages.length
      (bitLength messages.length + 1) 0 messages.length messages.length
      (le_refl _) (le_refl _)
    refine (scanVal_le messages _).trans ?_
    split <;> omega

/-- C5: cutoff boundedness — under a validly constructed `keep` spec, the
resolved cutoff `_determine_cutoff_index(messages)` always lies in
`[0, len(messages)]`, and a `("messages", v)` retain spec with
`len(messages) ≤ v` resolves to exactly 0. -/
theorem c5_cutoff_bounded (p : SlidingWindowProcessor) (messages : List ModelMessage)
    (hkeep : specValid p.keep) :
    p.determine_cutoff_index messages ≤ messages.length ∧
    (∀ v : ℚ, p.keep = ("messages", v) → (messages.length : ℚ) ≤ v →
      p.determine_cutoff_index messages = 0) := by
  constructor
  · unfold SlidingWindowProcessor.determine_cutoff_index determine_cutoff_with
    split
    · rename_i hmsg
      apply find_safe_cutoff_le
      apply pythonInt_nonneg
      rcases hkeep with ⟨hf, _⟩ | ⟨_, hv⟩
      · rw [hmsg] at hf; exact absurd hf (by decide)
      · exact le_of_lt hv
    · split
      · exact find_token_based_cutoff_le _ _ _
      · split
        · exact find_token_based_cutoff_le _ _ _
        · exact find_safe_cutoff_le _ _ (by norm_num)
  · intro v hv hlen
    have hv0 : 0 < v := by
      rcases hkeep with ⟨hf, _⟩ | ⟨_, hq⟩
      · rw [hv] at hf; simp at hf
      · rw [hv] at hq; exact hq
    have hle : (messages.length : ℤ) ≤ pythonInt v := by
      rw [pythonInt_eq_floor_of_nonneg v (le_of_lt hv0)]
      exact Int.le_floor.mpr (by exact_mod_cast hlen)
    unfold SlidingWindowProcessor.determine_cutoff_index determine_cutoff_with
    rw [hv]
    show (if ("messages", v).1 = "messages" then
        find_safe_cutoff messages (pythonInt ("messages", v).2)
      else if ("messages", v).1 = "tokens" then
        find_token_based_cutoff p.token_counter messages (pythonInt ("messages", v).2)
      else if ("messages", v).1 = "fraction" ∧ optTruthy p.max_input_tokens = true then
        find_token_based_cutoff p.token_counter messages
          (pythonInt ((p.max_input_tokens.getD 0 : ℚ) * ("messages", v).2))
      else find_safe_cutoff messages 50) = 0
    rw [if_pos rfl]
    show find_safe_cutoff messages (pythonInt v) = 0
    unfold find_safe_cutoff
    rw [if_pos hle]

/-- C5 witness: keep spec `("messages", 3)` on a two-message log yields
cutoff 0, within `[0, 2]`. -/
theorem c5_cutoff_bounded_witness :
    SlidingWindowProcessor.determine_cutoff_index windowC (plainMsgs 2) ≤
        (plainMsgs 2).length ∧
      SlidingWindowProcessor.determine_cutoff_index windowC (plainMsgs 2) = 0 := by
  have h := c5_cutoff_bounded windowC (plainMsgs 2)
    (Or.inr ⟨Or.inr rfl, by decide⟩)
  exact ⟨h.1, h.2 3 rfl (by norm_num [plainMsgs])⟩

theorem requestHasReturnIn_superset (msg : ModelMessage) (id : String)
    (ids : List String) (h1 : requestHasReturnIn msg [id] = true) (h2 : id ∈ ids) :
    requestHasReturnIn msg ids = true := by
  unfold requestHasReturnIn at h1 ⊢
  cases msg with
  | response _ => cases h1
  | request parts =>
    rw [List.any_eq_true] at h1 ⊢
    obtain ⟨part, hp, hmatch⟩ := h1
    refine ⟨part, hp, ?_⟩
    cases part with
    | toolReturn a b tid =>
      simp only at hmatch ⊢
      have htid : tid = id := by
        have := List.elem_iff.mp hmatch
        simpa using this
      rw [htid]
      exact List.elem_iff.mpr h2
    | userPrompt c => cases hmatch
    | systemPrompt s => cases hmatch
    | other => cases hmatch

theorem safe_point_no_split (messages : List ModelMessage) (k i j : ℕ) (id : String)
    (hsafe : is_safe_cutoff_point messages k = true)
    (hwin1 : k ≤ i + SEARCH_RANGE_FOR_TOOL_PAIRS)
    (hwin2 : i < k + SEARCH_RANGE_FOR_TOOL_PAIRS)
    (hi : i < messages.length) (hij : i < j) (hj : j < messages.length)
    (hcall : id ∈ toolCallIds (messages.getD i (.request [])))
    (hret : requestHasReturnIn (messages.getD j (.request [])) [id] = true) :
    (i < k ↔ j < k) := by
  by_cases hk : messages.length ≤ k
  · constructor <;> intro _ <;> omega
  · unfold is_safe_cutoff_point at hsafe
    rw [if_neg hk] at hsafe
    rw [List.all_eq_true] at hsafe
    have hwinmem : i ∈ List.range' (k - SEARCH_RANGE_FOR_TOOL_PAIRS)
        (min messages.length (k + SEARCH_RANGE_FOR_TOOL_PAIRS) -
          (k - SEARCH_RANGE_FOR_TOOL_PAIRS)) := by
      rw [List.mem_range'_1]
      unfold SEARCH_RANGE_FOR_TOOL_PAIRS at hwin1 hwin2 ⊢
      omega
    have hbody := hsafe i hwinmem
    simp only at hbody
    rw [if_neg (by simpa [List.isEmpty_iff] using List.ne_nil_of_mem hcall)] at hbody
    rw [List.all_eq_true] at hbody
    have hjmem : j ∈ List.range' (i + 1) (messages.length - (i + 1)) := by
      rw [List.mem_range'_1]
      omega
    have hinner := hbody j hjmem
    simp only at hinner
    rw [if_pos (requestHasReturnIn_superset _ id _ hret hcall)] at hinner
    rw [beq_iff_eq] at hinner
    exact decide_eq_decide.mp hinner

theorem find_safe_cutoff_cases (messages : List ModelMessage) (m : ℤ) :
    find_safe_cutoff messages m = 0 ∨
      ∃ t, find_safe_cutoff messages m = (firstSafeDown messages t).getD 0 := by
  unfold find_safe_cutoff
  split
  · exact Or.inl rfl
  · exact Or.inr ⟨_, rfl⟩

theorem find_token_based_cutoff_cases (counter : List ModelMessage → ℤ)
    (messages : List ModelMessage) (target : ℤ) :
    find_token_based_cutoff counter messages target = 0 ∨
      ∃ t, find_token_based_cutoff counter messages target =
        (firstSafeDown messages t).getD 0 := by
  unfold find_token_based_cutoff
  split
  · exact Or.inl rfl
  · exact Or.inr ⟨_, rfl⟩

theorem determine_cutoff_with_cases (counter : List ModelMessage → ℤ)
    (max_input_tokens : Option ℤ) (keep : ContextSize) (default_keep : ℤ)
    (messages : List ModelMessage) :
    determine_cutoff_with counter max_input_tokens keep default_keep messages = 0 ∨
      ∃ t, determine_cutoff_with counter max_input_tokens keep default_keep messages =
        (firstSafeDown messages t).getD 0 := by
  unfold determine_cutoff_with
  split
  · exact find_safe_cutoff_cases messages _
  · split
    · exact find_token_based_cutoff_cases counter messages _
    · split
      · exact find_token_based_cutoff_cases counter messages _
      · exact find_safe_cutoff_cases messages _

theorem determine_cutoff_with_pos_safe (counter : List ModelMessage → ℤ)
    (max_input_tokens : Option ℤ) (keep : ContextSize) (default_keep : ℤ)
    (messages : List ModelMessage)
    (h : 0 < determine_cutoff_with counter max_input_tokens keep default_keep messages) :
    is_safe_cutoff_point messages
      (determine_cutoff_with counter max_input_tokens keep default_keep messages) = true := by
  rcases determine_cutoff_with_cases counter max_input_tokens keep default_keep messages
    with h0 | ⟨t, ht⟩
  · omega
  · rw [ht]
    rw [ht] at h
    exact scanVal_safe_of_pos messages t h

/-- C1: no split pairs — whenever `SlidingWindowProcessor.__call__` trims
(the trigger fires and the resolved cutoff `k` is positive) it returns
`messages[k:]`, and for every tool call at index `i` within the guard's
window radius 5 of `k` (`k - 5 ≤ i < k + 5`) whose matching tool return sits
at an index `j > i` of the log, the cutoff does not separate the pair:
`(i < k) ↔ (j < k)`. -/
theorem c1_no_split_pairs (p : SlidingWindowProcessor) (messages : List ModelMessage)
    (i j : ℕ) (id : String)
    (htrim : should_trim p messages (p.token_counter messages) = true)
    (hpos : 0 < p.determine_cutoff_index messages)
    (hwin1 : p.determine_cutoff_index messages ≤ i + SEARCH_RANGE_FOR_TOOL_PAIRS)
    (hwin2 : i < p.determine_cutoff_index messages + SEARCH_RANGE_FOR_TOOL_PAIRS)
    (hi : i < messages.length) (hij : i < j) (hj : j < messages.length)
    (hcall : id ∈ toolCallIds (messages.getD i (.request [])))
    (hret : requestHasReturnIn (messages.getD j (.request [])) [id] = true) :
    p.call messages = messages.drop (p.determine_cutoff_index messages) ∧
      (i < p.determine_cutoff_index messages ↔ j < p.determine_cutoff_index messages) := by
  refine ⟨call_eq_drop p messages htrim hpos, ?_⟩
  exact safe_point_no_split messages (p.determine_cutoff_index messages) i j id
    (determine_cutoff_with_pos_safe p.token_counter p.max_input_tokens p.keep 50
      messages hpos)
    hwin1 hwin2 hi hij hj hcall hret

/-- C1 witness: on the eight-message log with the pair (5, 6), the fired
trigger and keep-2 spec resolve to cutoff 5, the call at index 5 lies in
the guard window, and both pair members stay at-or-after the cutoff. -/
theorem c1_no_split_pairs_witness :
    SlidingWindowProcessor.call windowA pairMsgs = pairMsgs.drop 5 ∧
      ((5 : ℕ) < 5 ↔ (6 : ℕ) < 5) := by
  have h := c1_no_split_pairs windowA pairMsgs 5 6 "a" (by decide) (by decide)
    (by decide) (by decide) (by decide) (by decide) (by decide) (by decide) (by decide)
  have hd : windowA.determine_cutoff_index pairMsgs = 5 := by decide
  rw [hd] at h
  exact h

theorem countInt_drop_mono (l : List ModelMessage) (k1 k2 : ℕ) (h : k1 ≤ k2) :
    countInt (l.drop k2) ≤ countInt (l.drop k1) := by
  unfold countInt
  exact_mod_cast count_drop_mono l k1 k2 h

theorem binSearchLoop_spec (counter : List ModelMessage → ℤ) (messages : List ModelMessage)
    (target : ℤ)
    (hmono : ∀ k1 k2 : ℕ, k1 ≤ k2 → counter (messages.drop k2) ≤ counter (messages.drop k1)) :
    ∀ (fuel left right cand : ℕ),
      left ≤ right → right ≤ messages.length → cand = right →
      (∀ j, j < left → ¬ counter (messages.drop j) ≤ target) →
      (∀ j, right ≤ j → j < messages.length → counter (messages.drop j) ≤ target) →
      right - left < 2 ^ fuel →
      ((binSearchLoop counter messages target fuel left right cand).2.2 ≤ messages.length ∧
        (∀ j, j < (binSearchLoop counter messages target fuel left right cand).2.2 →
          ¬ counter (messages.drop j) ≤ target) ∧
        (∀ j, (binSearchLoop counter messages target fuel left right cand).2.2 ≤ j →
          j < messages.length → counter (messages.drop j) ≤ target)) := by
  intro fuel
  induction fuel with
  | zero =>
    intro left right cand hlr hrn hcr hlo hhi hgap
    have hlr' : left = right := by omega
    subst hcr
    subst hlr'
    simp only [binSearchLoop]
    exact ⟨hrn, fun j hj => hlo j hj, fun j hj1 hj2 => hhi j hj1 hj2⟩
  | succ f ih =>
    intro left right cand hlr hrn hcr hlo hhi hgap
    have hx : 0 < (2:ℕ) ^ f := pow_pos (by norm_num) f
    have hp : (2:ℕ) ^ (f + 1) = 2 ^ f * 2 := pow_succ 2 f
    unfold binSearchLoop
    split
    · rename_i hrl
      have hlr' : left = right := by omega
      subst hcr
      subst hlr'
      exact ⟨hrn, fun j hj => hlo j hj, fun j hj1 hj2 => hhi j hj1 hj2⟩
    · rename_i hrl
      simp only
      split
      · rename_i hfit
        apply ih left ((left + right) / 2) ((left + right) / 2)
        · omega
        · omega
        · rfl
        · exact hlo
        · intro j hj1 hj2
          exact le_trans (hmono ((left + right) / 2) j hj1) hfit
        · omega
      · rename_i hnofit
        apply ih ((left + right) / 2 + 1) right cand
        · omega
        · exact hrn
        · exact hcr
        · intro j hj hcon
          exact hnofit (le_trans (hmono j ((left + right) / 2) (by omega)) hcon)
        · exact hhi
        · omega

/-- C2 (amended): token-budget cutoff minimality — `_find_token_based_cutoff`
returns 0 when the log is empty or already fits the target; for a monotone
counter on a non-empty over-budget log whose every index is a safe cutoff,
it returns the smallest `k` in `[0, len - 1]` with
`counter(messages[k:]) ≤ target` when such a `k` exists, and `len - 1`
(retaining the final message even though the budget is exceeded) when only
the empty suffix — or nothing — would fit. -/
theorem c2_token_budget_cutoff (counter : List ModelMessage → ℤ)
    (messages : List ModelMessage) (target : ℤ) :
    ((messages = [] ∨ counter messages ≤ target) →
      find_token_based_cutoff counter messages target = 0) ∧
    ((∀ k1 k2 : ℕ, k1 ≤ k2 → counter (messages.drop k2) ≤ counter (messages.drop k1)) →
      (∀ i, i ≤ messages.length → is_safe_cutoff_point messages i = true) →
      messages ≠ [] → target < counter messages →
      ((∃ k, k < messages.length ∧ counter (messages.drop k) ≤ target) →
        find_token_based_cutoff counter messages target < messages.length ∧
        counter (messages.drop (find_token_based_cutoff counter messages target)) ≤ target ∧
        ∀ j, j < find_token_based_cutoff counter messages target →
          ¬ counter (messages.drop j) ≤ target) ∧
      ((∀ k, k < messages.length → ¬ counter (messages.drop k) ≤ target) →
        find_token_based_cutoff counter messages target = messages.length - 1)) := by
  constructor
  · intro h
    have h' : messages.isEmpty = true ∨ counter messages ≤ target := by
      rcases h with h | h
      · exact Or.inl (by simp [h])
      · exact Or.inr h
    unfold find_token_based_cutoff
    rw [if_pos h']
  · intro hmono hsafe hne htot
    have hn1 : 1 ≤ messages.length := by
      cases messages with
      | nil => exact absurd rfl hne
      | cons a t => simp
    have hcond : ¬ (messages.isEmpty = true ∨ counter messages ≤ target) := by
      rintro (h | h)
      · exact hne (List.isEmpty_iff.mp h)
      · omega
    have hloop := binSearchLoop_spec counter messages target hmono
      (bitLength messages.length + 1) 0 messages.length messages.length
      (Nat.zero_le _) (le_refl _) rfl
      (fun j hj => absurd hj (Nat.not_lt_zero j))
      (fun j hj1 hj2 => absurd (lt_of_le_of_lt hj1 hj2) (lt_irrefl _))
      (by
        have hlt : messages.length < 2 ^ (bitLength messages.length) := by
          unfold bitLength
          rw [if_neg (by omega)]
          exact (Nat.log2_lt (by omega)).mp (Nat.lt_succ_self _)
        have h2 : (2:ℕ) ^ (bitLength messages.length + 1) =
            2 ^ (bitLength messages.length) * 2 := pow_succ 2 _
        omega)
    set c := (binSearchLoop counter messages target (bitLength messages.length + 1)
      0 messages.length messages.length).2.2 with hc
    obtain ⟨hcle, hbelow, habove⟩ := hloop
    have hval : find_token_based_cutoff counter messages target =
        (firstSafeDown messages
          (if messages.length ≤ c then messages.length - 1 else c)).getD 0 := by
      unfold find_token_based_cutoff
      rw [if_neg hcond]
    constructor
    · rintro ⟨k, hk, hfit⟩
      have hcn : c < messages.length := by
        rcases lt_or_ge c messages.length with h | h
        · exact h
        · exact absurd hfit (hbelow k (by omega))
      have hcfit : counter (messages.drop c) ≤ target := habove c (le_refl c) hcn
      rw [hval, if_neg (by omega)]
      rw [firstSafeDown_of_safe messages c (hsafe c (by omega))]
      simp only [Option.getD_some]
      exact ⟨hcn, hcfit, hbelow⟩
    · intro hnofit
      have hcn : c = messages.length := by
        rcases lt_or_ge c messages.length with h | h
        · exact absurd (habove c (le_refl c) h) (hnofit c h)
        · omega
      rw [hval, if_pos (by omega)]
      rw [firstSafeDown_of_safe messages (messages.length - 1) (hsafe _ (by omega))]
      simp

/-- C2 witness: four two-token messages against target 4 — the cutoff is
smaller than the length and the retained suffix fits the budget. -/
theorem c2_token_budget_cutoff_witness :
    find_token_based_cutoff countInt tokMsgs 4 < tokMsgs.length ∧
      countInt (tokMsgs.drop (find_token_based_cutoff countInt tokMsgs 4)) ≤ 4 := by
  have h := (c2_token_budget_cutoff countInt tokMsgs 4).2
    (fun k1 k2 hk => countInt_drop_mono tokMsgs k1 k2 hk)
    (by decide) (by decide) (by decide)
  have h2 := h.1 ⟨2, by decide, by decide⟩
  exact ⟨h2.1, h2.2.1⟩

/-- C2 counterexample: a single one-token message against target 0.  The
log is non-empty, exceeds the target, every index is a safe cutoff, and the
smallest `k` in `[0, len]` with `counter(messages[k:]) ≤ 0` is `k = 1`
(the empty suffix), yet the function returns 0 — whose suffix does not fit
the budget — because the clamp `cutoff_candidate = max(0, len - 1)` refuses
to discard every message. -/
theorem c2_token_budget_cutoff_counterexample :
    find_token_based_cutoff countInt oneMsg 0 = 0 ∧
      oneMsg ≠ [] ∧ 0 < countInt oneMsg ∧ countInt (oneMsg.drop 1) ≤ 0 ∧
      (∀ i, i ≤ oneMsg.length → is_safe_cutoff_point oneMsg i = true) ∧
      ¬ countInt (oneMsg.drop (find_token_based_cutoff countInt oneMsg 0)) ≤ 0 := by
  decide

theorem triggerHit_iff_amended (max_input_tokens : Option ℤ) (messages_len : ℕ)
    (total_tokens : ℤ) (c : ContextSize) :
    triggerHit max_input_tokens messages_len total_tokens c = true ↔
      amendedSpecSatisfied max_input_tokens messages_len total_tokens c := by
  unfold triggerHit amendedSpecSatisfied
  rw [decide_eq_true_iff]
  constructor
  · rintro (h | h | ⟨hf, ht, hge⟩)
    · exact Or.inl h
    · exact Or.inr (Or.inl h)
    · refine Or.inr (Or.inr ⟨hf, ?_⟩)
      cases hmax : max_input_tokens with
      | none => rw [hmax] at ht; simp [optTruthy] at ht
      | some m =>
        rw [hmax] at ht hge
        refine ⟨m, rfl, ?_, ?_⟩
        · simpa [optTruthy] using ht
        · simpa using hge
  · rintro (h | h | ⟨hf, m, hm, hm0, hge⟩)
    · exact Or.inl h
    · exact Or.inr (Or.inl h)
    · refine Or.inr (Or.inr ⟨hf, ?_, ?_⟩)
      · simp [optTruthy, hm, hm0]
      · simpa [hm] using hge

theorem anyHit_iff (conds : List ContextSize) (max_input_tokens : Option ℤ)
    (messages_len : ℕ) (total_tokens : ℤ) :
    conds.any (triggerHit max_input_tokens messages_len total_tokens) = true ↔
      ∃ c ∈ conds, amendedSpecSatisfied max_input_tokens messages_len total_tokens c := by
  rw [List.any_eq_true]
  constructor
  · rintro ⟨c, hc, hhit⟩
    exact ⟨c, hc, (triggerHit_iff_amended _ _ _ c).mp hhit⟩
  · rintro ⟨c, hc, hsat⟩
    exact ⟨c, hc, (triggerHit_iff_amended _ _ _ c).mpr hsat⟩

/-- C3 (amended): trigger evaluation — `_should_trim` (and the identical
`_should_summarize`) returns false when the trigger list is empty, and
otherwise returns true iff at least one configured spec is satisfied, where
`("messages", n)` needs `len(messages) ≥ n`, `("tokens", n)` needs
`total_tokens ≥ n`, and `("fraction", f)` needs `max_input_tokens` to be
present *and nonzero* (Python truthiness) with
`total_tokens ≥ int(max_input_tokens * f)` (truncation toward zero, equal
to floor for a nonnegative limit); the existential form is independent of
the order of the specs. -/
theorem c3_trigger_evaluation (p : SlidingWindowProcessor)
    (q : SummarizationProcessor) (messages : List ModelMessage) (total_tokens : ℤ) :
    (p.trigger_conditions = [] → should_trim p messages total_tokens = false) ∧
    (should_trim p messages total_tokens = true ↔
      ∃ c ∈ p.trigger_conditions,
        amendedSpecSatisfied p.max_input_tokens messages.length total_tokens c) ∧
    (q.trigger_conditions = [] → should_summarize q messages total_tokens = false) ∧
    (should_summarize q messages total_tokens = true ↔
      ∃ c ∈ q.trigger_conditions,
        amendedSpecSatisfied q.max_input_tokens messages.length total_tokens c) := by
  refine ⟨?_, ?_, ?_, ?_⟩
  · intro h
    unfold should_trim
    rw [if_pos (by simp [h])]
  · unfold should_trim
    split
    · rename_i hempty
      simp only [List.isEmpty_iff] at hempty
      simp [hempty]
    · exact anyHit_iff _ _ _ _
  · intro h
    unfold should_summarize
    rw [if_pos (by simp [h])]
  · unfold should_summarize
    split
    · rename_i hempty
      simp only [List.isEmpty_iff] at hempty
      simp [hempty]
    · exact anyHit_iff _ _ _ _

/-- C3 witness: an empty trigger list yields false, and on the fixture
`windowA` a fired `("messages", 4)` trigger matches the existential
characterization. -/
theorem c3_trigger_evaluation_witness :
    should_trim ⟨[], ("messages", 50), countInt, none⟩ (plainMsgs 1) 0 = false ∧
      should_trim windowA (plainMsgs 4) 0 = true := by
  constructor
  · exact (c3_trigger_evaluation ⟨[], ("messages", 50), countInt, none⟩
      summarizerA (plainMsgs 1) 0).1 rfl
  · exact (c3_trigger_evaluation windowA summarizerA (plainMsgs 4) 0).2.1.mpr
      ⟨("messages", 4), by decide, Or.inl ⟨rfl, by norm_num [plainMsgs]⟩⟩

/-- C3 counterexample: with `max_input_tokens = 0` the fraction spec
`("fraction", 1)` is satisfied under the claim's reading (the field is
present and `0 ≥ floor(0 * 1)`), yet `_should_trim` returns false, because
the code tests Python truthiness (`if self.max_input_tokens:`) rather than
presence. -/
theorem c3_trigger_evaluation_counterexample :
    should_trim fracZeroWindow [] 0 = false ∧
      ("fraction", (1:ℚ)) ∈ fracZeroWindow.trigger_conditions ∧
      claimSpecSatisfied fracZeroWindow.max_input_tokens 0 0 ("fraction", (1:ℚ)) = true := by
  refine ⟨?_, by decide, ?_⟩
  · unfold should_trim
    rw [if_neg (by decide)]
    dsimp only [fracZeroWindow]
    simp only [List.any_cons, List.any_nil, Bool.or_false]
    unfold triggerHit
    apply decide_eq_false
    rintro (⟨h, _⟩ | ⟨h, _⟩ | ⟨_, h, _⟩)
    · exact absurd h (by decide)
    · exact absurd h (by decide)
    · exact absurd h (by decide)
  · unfold claimSpecSatisfied
    rw [decide_eq_true_iff]
    right; right
    refine ⟨rfl, rfl, ?_⟩
    dsimp only [fracZeroWindow]
    norm_num

theorem validate_ok_of_valid (c : ContextSize) (name : String) (h : specValid c) :
    validate_context_size c name = .ok c := by
  unfold validate_context_size
  rcases h with ⟨hf, hv⟩ | ⟨hk, hv⟩
  · rw [if_pos hf, if_neg (not_not_intro hv)]
  · have hnf : ¬ c.1 = "fraction" := by
      rcases hk with h | h <;> rw [h] <;> decide
    rw [if_neg hnf, if_pos hk, if_neg (not_le.mpr hv)]

theorem validate_err_of_invalid (c : ContextSize) (name : String) (h : ¬ specValid c) :
    ∃ e, validate_context_size c name = .error e := by
  unfold validate_context_size
  by_cases hf : c.1 = "fraction"
  · rw [if_pos hf]
    by_cases hv : 0 < c.2 ∧ c.2 ≤ 1
    · exact absurd (Or.inl ⟨hf, hv⟩) h
    · rw [if_pos hv]
      exact ⟨_, rfl⟩
  · rw [if_neg hf]
    by_cases hk : c.1 = "tokens" ∨ c.1 = "messages"
    · rw [if_pos hk]
      by_cases hv : c.2 ≤ 0
      · rw [if_pos hv]
        exact ⟨_, rfl⟩
      · exact absurd (Or.inr ⟨hk, not_le.mp hv⟩) h
    · rw [if_neg hk]
      exact ⟨_, rfl⟩

theorem vtl_ok_of_valid (cs : List ContextSize) (h : ∀ c ∈ cs, specValid c) :
    validateTriggerList cs = .ok cs := by
  induction cs with
  | nil => rfl
  | cons c t ih =>
    unfold validateTriggerList
    rw [validate_ok_of_valid c _ (h c (by simp)),
      ih (fun x hx => h x (by simp [hx]))]
    rfl

theorem vtl_err_of_invalid (cs : List ContextSize) (h : ∃ c ∈ cs, ¬ specValid c) :
    ∃ e, validateTriggerList cs = .error e := by
  induction cs with
  | nil => simp at h
  | cons c t ih =>
    obtain ⟨d, hd, hnd⟩ := h
    rw [List.mem_cons] at hd
    unfold validateTriggerList
    by_cases hc : specValid c
    · rw [validate_ok_of_valid c _ hc]
      have hdt : d ∈ t := by
        rcases hd with rfl | hdt
        · exact absurd hc hnd
        · exact hdt
      obtain ⟨e, he⟩ := ih ⟨d, hdt, hnd⟩
      rw [he]
      exact ⟨e, rfl⟩
    · obtain ⟨e, he⟩ := validate_err_of_invalid c "trigger" hc
      rw [he]
      exact ⟨e, rfl⟩

theorem post_init_eval (trigger : TriggerArg) (keep : ContextSize) (m : Option ℤ)
    (hall : ∀ c ∈ trigger.specs, specValid c) (hk : specValid keep) :
    post_init trigger keep m =
      if (trigger.specs.any (fun t => t.1 = "fraction") ||
          decide (keep.1 = "fraction")) = true ∧ m = none then
        .error "max_input_tokens is required when using fraction-based triggers or keep."
      else .ok (trigger.specs, keep) := by
  cases trigger with
  | noTrigger =>
    unfold post_init
    dsimp only
    rw [validate_ok_of_valid keep _ hk]
    rfl
  | single c =>
    unfold post_init
    dsimp only
    rw [validate_ok_of_valid c _ (hall c (by simp [TriggerArg.specs])),
      validate_ok_of_valid keep _ hk]
    rfl
  | multi cs =>
    unfold post_init
    dsimp only
    rw [vtl_ok_of_valid cs (by simpa [TriggerArg.specs] using hall),
      validate_ok_of_valid keep _ hk]
    rfl

theorem post_init_err_invalid_trigger (trigger : TriggerArg) (keep : ContextSize)
    (m : Option ℤ) (h : ∃ c ∈ trigger.specs, ¬ specValid c) :
    isOkE (post_init trigger keep m) = false := by
  cases trigger with
  | noTrigger => simp [TriggerArg.specs] at h
  | single c =>
    obtain ⟨d, hd, hnd⟩ := h
    simp only [TriggerArg.specs, List.mem_singleton] at hd
    subst hd
    obtain ⟨e, he⟩ := validate_err_of_invalid d "trigger" hnd
    unfold post_init
    dsimp only
    rw [he]
    rfl
  | multi cs =>
    obtain ⟨e, he⟩ := vtl_err_of_invalid cs (by simpa [TriggerArg.specs] using h)
    unfold post_init
    dsimp only
    rw [he]
    rfl

theorem post_init_err_invalid_keep (trigger : TriggerArg) (keep : ContextSize)
    (m : Option ℤ) (hall : ∀ c ∈ trigger.specs, specValid c) (h : ¬ specValid keep) :
    isOkE (post_init trigger keep m) = false := by
  obtain ⟨e, he⟩ := validate_err_of_invalid keep "keep" h
  cases trigger with
  | noTrigger =>
    unfold post_init
    dsimp only
    rw [he]
    rfl
  | single c =>
    unfold post_init
    dsimp only
    rw [validate_ok_of_valid c _ (hall c (by simp [TriggerArg.specs])), he]
    rfl
  | multi cs =>
    unfold post_init
    dsimp only
    rw [vtl_ok_of_valid cs (by simpa [TriggerArg.specs] using hall), he]
    rfl

/-- C6: construction-time validation raises exactly on invalid
configurations — `__post_init__` succeeds iff every trigger spec and the
keep spec has a known kind with a positive threshold (fraction values in
`(0, 1]`), and `max_input_tokens` is not `None` whenever a fraction spec is
present as trigger or keep. -/
theorem c6_post_init_ok_iff (trigger : TriggerArg) (keep : ContextSize)
    (max_input_tokens : Option ℤ) :
    isOkE (post_init trigger keep max_input_tokens) = true ↔
      ((∀ c ∈ trigger.specs, specValid c) ∧ specValid keep ∧
        (((∃ c ∈ trigger.specs, c.1 = "fraction") ∨ keep.1 = "fraction") →
          max_input_tokens ≠ none)) := by
  constructor
  · intro h
    by_cases hall : ∀ c ∈ trigger.specs, specValid c
    · by_cases hk : specValid keep
      · refine ⟨hall, hk, ?_⟩
        intro hfrac hm
        have hreq : (trigger.specs.any (fun t => t.1 = "fraction") ||
            decide (keep.1 = "fraction")) = true := by
          rw [Bool.or_eq_true, List.any_eq_true]
          rcases hfrac with ⟨c, hc, hcf⟩ | hkf
          · exact Or.inl ⟨c, hc, by simp [hcf]⟩
          · exact Or.inr (by simp [hkf])
        rw [post_init_eval trigger keep max_input_tokens hall hk,
          if_pos ⟨hreq, hm⟩] at h
        simp [isOkE] at h
      · rw [post_init_err_invalid_keep trigger keep max_input_tokens hall hk] at h
        exact Bool.noConfusion h
    · push_neg at hall
      rw [post_init_err_invalid_trigger trigger keep max_input_tokens hall] at h
      exact Bool.noConfusion h
  · rintro ⟨hall, hk, hmax⟩
    rw [post_init_eval trigger keep max_input_tokens hall hk]
    split
    · rename_i hcond
      obtain ⟨hreq, hm⟩ := hcond
      have hpres : (∃ c ∈ trigger.specs, c.1 = "fraction") ∨ keep.1 = "fraction" := by
        rw [Bool.or_eq_true, List.any_eq_true] at hreq
        rcases hreq with ⟨c, hc, hcf⟩ | hkf
        · exact Or.inl ⟨c, hc, by simpa using hcf⟩
        · exact Or.inr (by simpa using hkf)
      exact absurd hm (hmax hpres)
    · rfl

theorem ftbc_nil (counter : List ModelMessage → ℤ) (target : ℤ) :
    find_token_based_cutoff counter [] target = 0 := by
  have hc : (([] : List ModelMessage).isEmpty = true) ∨ counter [] ≤ target :=
    Or.inl rfl
  unfold find_token_based_cutoff
  rw [if_pos hc]

theorem determine_nil_eq_zero (counter : List ModelMessage → ℤ)
    (max_input_tokens : Option ℤ) (keep : ContextSize) (default_keep : ℤ)
    (hkeep : specValid keep) (hd : 0 ≤ default_keep) :
    determine_cutoff_with counter max_input_tokens keep default_keep [] = 0 := by
  unfold determine_cutoff_with
  split
  · rename_i hmsg
    have h0 : ((([] : List ModelMessage).length : ℕ) : ℤ) ≤ pythonInt keep.2 := by
      simp only [List.length_nil, Nat.cast_zero]
      apply pythonInt_nonneg
      rcases hkeep with ⟨hf, _⟩ | ⟨_, hv⟩
      · rw [hmsg] at hf; exact absurd hf (by decide)
      · exact le_of_lt hv
    unfold find_safe_cutoff
    rw [if_pos h0]
  · split
    · exact ftbc_nil counter _
    · split
      · exact ftbc_nil counter _
      · have h0 : ((([] : List ModelMessage).length : ℕ) : ℤ) ≤ default_keep := by
          simpa using hd
        unfold find_safe_cutoff
        rw [if_pos h0]

theorem sum_call_eq (p : SummarizationProcessor) (run : String → Except String String)
    (messages : List ModelMessage)
    (h1 : should_summarize p messages (p.token_counter messages) = true)
    (h2 : 0 < p.determine_cutoff_index messages) :
    p.call run messages =
      ModelMessage.request [RequestPart.systemPrompt
        ("Summary of previous conversation:\n\n" ++
          create_summary p run (messages.take (p.determine_cutoff_index messages)))]
        :: messages.drop (p.determine_cutoff_index messages) := by
  unfold SummarizationProcessor.call
  have hne : ¬ (p.determine_cutoff_index messages ≤ 0) := by omega
  simp [h1, hne]

/-- C8: summarizer failure never propagates — whenever the trigger fires and
the cutoff `k` is positive (under a valid keep spec),
`SummarizationProcessor.__call__` returns `[summary_message, *messages[k:]]`
(it is a total function of the collaborator's `Except` result, never a
raise); and when the collaborator fails with `e`, the synthetic summary
message carries `"Error generating summary: "` followed by the exception
text. -/
theorem c8_summarizer_failure_degrades (p : SummarizationProcessor)
    (run : String → Except String String) (messages : List ModelMessage)
    (hkeep : specValid p.keep)
    (htrig : should_summarize p messages (p.token_counter messages) = true)
    (hpos : 0 < p.determine_cutoff_index messages) :
    p.call run messages =
      ModelMessage.request [RequestPart.systemPrompt
        ("Summary of previous conversation:\n\n" ++
          create_summary p run (messages.take (p.determine_cutoff_index messages)))]
        :: messages.drop (p.determine_cutoff_index messages) ∧
      ∀ e : String,
        run (summary_prompt_input p
          (messages.take (p.determine_cutoff_index messages))) = .error e →
        create_summary p run (messages.take (p.determine_cutoff_index messages)) =
          "Error generating summary: " ++ e := by
  refine ⟨sum_call_eq p run messages htrig hpos, ?_⟩
  intro e he
  have hne : messages ≠ [] := by
    intro hnil
    rw [hnil] at hpos
    unfold SummarizationProcessor.determine_cutoff_index at hpos
    rw [determine_nil_eq_zero p.token_counter p.max_input_tokens p.keep 20 hkeep
      (by norm_num)] at hpos
    exact absurd hpos (lt_irrefl 0)
  have hlen : 0 < (messages.take (p.determine_cutoff_index messages)).length := by
    rw [List.length_take]
    have hml : 0 < messages.length := List.length_pos.mpr hne
    omega
  unfold create_summary
  rw [if_neg (by
    intro hcon
    rw [List.isEmpty_iff] at hcon
    rw [hcon] at hlen
    simp at hlen)]
  rw [he]

/-- C8 witness: with an always-failing collaborator, the fixture processor
on three plain messages returns the synthetic error summary prefixed to the
preserved suffix. -/
theorem c8_summarizer_failure_degrades_witness :
    SummarizationProcessor.call summarizerA failingRun (plainMsgs 3) =
      ModelMessage.request [RequestPart.systemPrompt
        "Summary of previous conversation:\n\nError generating summary: boom"]
        :: (plainMsgs 3).drop 2 := by
  have h := c8_summarizer_failure_degrades summarizerA failingRun (plainMsgs 3)
    (Or.inr ⟨Or.inr rfl, by decide⟩) (by decide) (by decide)
  have hd : summarizerA.determine_cutoff_index (plainMsgs 3) = 2 := by decide
  rw [hd] at h
  have herr := h.2 "boom" rfl
  rw [h.1, herr]
  rfl
